import Mathlib

/-!
Verification of the texture-atlas / mipmap-pyramid component of the
JumpAndRun repository (src/texture.rs, type TextureData<T>).

The Rust code is embedded shallowly:

* u32 arithmetic is modelled by Nat.  All quantities appearing here
  (pixel counts, mip level counts, coordinates) stay far below 2^32 in the
  program, and none of the verified claims concern wrap-around, so the
  embedding does not insert explicit reductions mod 2^32.
* u8 pixel channels are modelled by Fin 256, mirroring the Rust type [u8; 4].
* The backing Box<[T]> buffer is an Array T.  Slices produced by
  get_layer/get_mipmap are modelled by Array.extract, and writing through
  the &mut T returned by get_pixel_mut is modelled by a functional update
  of the flat buffer at the same position the slice chain addresses.
* Rust indexing / dividing that would panic is modelled totally
  (Array.getD / Array.setD with a no-op or default out of range, Nat
  division) except where a claim is about the panic itself: the panicking
  division inside depth_y is modelled with Except, and the debug_assert in
  new is modelled by new_checked returning Option.
-/

/-- Fuel-based floor of the base-2 logarithm.  With fuel ≥ n this computes
floor(log2 n) for n ≥ 1 (and 0 for n = 0), by repeated halving exactly like
the recursion underlying the mathematical definition.  A fuel parameter is
used so that the function is structurally recursive and evaluates inside
the kernel. -/
def log2Aux : Nat → Nat → Nat
  | 0, _ => 0
  | fuel + 1, n => if 2 ≤ n then log2Aux fuel (n / 2) + 1 else 0

/-- Embedding of TextureData::max_mapmap_levels.  The source computes
1 + f32::floor(f32::log2(u32::max(width, height) as f32)) as u32.  The
f32 round trip is embedded by its exact integer value 1 + floor(log2 (max
width height)); for every dimension appearing in the claims below (all far
below 2^24, where u32 -> f32 conversion is exact and log2 of the result is
unambiguous at the resolution floor observes) the two agree.  Whether they
agree for all representable u32 dimensions is a floating-point question
outside this embedding, and is addressed in the results as such. -/
def max_mapmap_levels (width height : Nat) : Nat :=
  1 + log2Aux (max width height) (max width height)

/-- Embedding of TextureData::mipmaped_size: (width / (1 << level)).max(1). -/
def mipmaped_size (width level : Nat) : Nat :=
  max (width / 2 ^ level) 1

/-- Embedding of TextureData::size_per_layer:
(0..levels).map(|i| mipmaped_size(width, i) * mipmaped_size(height, i)).sum(). -/
def size_per_layer (width height levels : Nat) : Nat :=
  ((List.range levels).map (fun i => mipmaped_size width i * mipmaped_size height i)).sum

/-- Embedding of the MipMaps policy enum from texture.rs. -/
inductive MipMaps where
  | none
  | some (levels : Nat)
  | all

/-- Pixel channel: a Rust u8. -/
abbrev U8 := Fin 256

/-- Truncating cast of a Nat to a u8 channel, the meaning of `as u8`. -/
def toU8 (n : Nat) : U8 := ⟨n % 256, Nat.mod_lt n (by omega)⟩

/-- An RGBA pixel, the Rust type [u8; 4].  Fields r, g, b, a are the
array entries 0, 1, 2, 3. -/
structure RGBA where
  r : U8
  g : U8
  b : U8
  a : U8
deriving DecidableEq

instance : Zero RGBA := ⟨⟨0, 0, 0, 0⟩⟩

instance : Inhabited RGBA := ⟨0⟩

/-- Embedding of TextureData::average, specialised to the four-element
slice it is always called with: per channel, the accumulated u32 sum is
divided by the slice length 4 and cast back with `as u8`. -/
def average (p0 p1 p2 p3 : RGBA) : RGBA where
  r := toU8 ((p0.r.val + p1.r.val + p2.r.val + p3.r.val) / 4)
  g := toU8 ((p0.g.val + p1.g.val + p2.g.val + p3.g.val) / 4)
  b := toU8 ((p0.b.val + p1.b.val + p2.b.val + p3.b.val) / 4)
  a := toU8 ((p0.a.val + p1.a.val + p2.a.val + p3.a.val) / 4)

/-- Embedding of the struct TextureData<T> from texture.rs. -/
structure TextureData (T : Type) where
  width : Nat
  height : Nat
  depth : Nat
  mipmaps : Nat
  depth_divisor : Option Nat
  pixels : Array T
deriving DecidableEq

namespace TextureData

/-- The mipmap count selected by TextureData::new for a given policy. -/
def mipmapCount (width height : Nat) : MipMaps → Nat
  | MipMaps.none => 1
  | MipMaps.some levels => levels
  | MipMaps.all => max_mapmap_levels width height

/-- Embedding of TextureData::new (the buffer it builds; the debug_assert
on the Some policy is modelled separately by new_checked below).
pixels = vec![T::zeroed(); (size_per_layer(width, height, mipmaps) * depth) as usize]. -/
def new {T : Type} [Zero T] (width height depth : Nat) (m : MipMaps) : TextureData T :=
  { width := width
    height := height
    depth := depth
    mipmaps := mipmapCount width height m
    depth_divisor := Option.none
    pixels := mkArray (size_per_layer width height (mipmapCount width height m) * depth) 0 }

/-- The condition of the debug_assert in TextureData::new:
(1u32..max_mapmap_levels(width, height)).contains(&levels) for the Some
policy, vacuous for None and All. -/
def new_assert_ok (width height : Nat) : MipMaps → Bool
  | MipMaps.some levels => decide (1 ≤ levels ∧ levels < max_mapmap_levels width height)
  | _ => true

/-- TextureData::new together with its debug_assert: in a debug build a
failing assertion aborts construction, modelled by Option.none. -/
def new_checked {T : Type} [Zero T] (width height depth : Nat) (m : MipMaps) :
    Option (TextureData T) :=
  if new_assert_ok width height m then Option.some (new width height depth m) else Option.none

/-- Embedding of TextureData::mipmapped_width. -/
def mipmapped_width (td : TextureData T) (mipmap : Nat) : Nat :=
  mipmaped_size td.width mipmap

/-- Embedding of TextureData::mipmapped_height. -/
def mipmapped_height (td : TextureData T) (mipmap : Nat) : Nat :=
  mipmaped_size td.height mipmap

/-- Embedding of TextureData::layer_size. -/
def layer_size (td : TextureData T) : Nat :=
  size_per_layer td.width td.height td.mipmaps

/-- Embedding of TextureData::depth_x. -/
def depth_x (td : TextureData T) : Option Nat :=
  td.depth_divisor

/-- Embedding of TextureData::depth_y:
self.depth_divisor.map(|dd| self.depth / dd).  Rust integer division
panics when dd = 0; the panic is modelled by Except.error. -/
def depth_y (td : TextureData T) : Except Unit (Option Nat) :=
  match td.depth_divisor with
  | Option.none => Except.ok Option.none
  | Option.some dd =>
      if dd = 0 then Except.error () else Except.ok (Option.some (td.depth / dd))

/-- Embedding of TextureData::get_layer: the slice
pixels[layer * layer_size .. (layer + 1) * layer_size]. -/
def get_layer (td : TextureData T) (layer : Nat) : Array T :=
  td.pixels.extract (layer * td.layer_size) ((layer + 1) * td.layer_size)

/-- Embedding of TextureData::get_mipmap: the sub-slice of get_layer from
size_per_layer(width, height, mipmap) to size_per_layer(width, height, mipmap + 1). -/
def get_mipmap (td : TextureData T) (layer mipmap : Nat) : Array T :=
  (td.get_layer layer).extract (size_per_layer td.width td.height mipmap)
    (size_per_layer td.width td.height (mipmap + 1))

/-- Embedding of TextureData::get_pixel: index x + y * mipmapped_width(mipmap)
into get_mipmap(layer, mipmap).  Rust would panic out of range; the total
model returns the default, and every claim below only reads in range. -/
def get_pixel [Inhabited T] (td : TextureData T) (x y layer mipmap : Nat) : T :=
  (td.get_mipmap layer mipmap).getD (x + y * td.mipmapped_width mipmap) default

/-- The flat position in pixels addressed by the get_layer/get_mipmap/
get_pixel slice chain at (x, y, layer, mipmap). -/
def pixel_index (td : TextureData T) (x y layer mipmap : Nat) : Nat :=
  layer * td.layer_size + size_per_layer td.width td.height mipmap +
    (x + y * td.mipmapped_width mipmap)

/-- Embedding of a write through TextureData::get_pixel_mut: the &mut T it
returns aliases the flat buffer at pixel_index, so assigning through it
updates that position. -/
def set_pixel (td : TextureData T) (x y layer mipmap : Nat) (v : T) : TextureData T :=
  { td with pixels := td.pixels.setD (td.pixel_index x y layer mipmap) v }

end TextureData

instance {E A : Type} [DecidableEq E] [DecidableEq A] : DecidableEq (Except E A) := fun a b =>
  match a, b with
  | Except.ok x, Except.ok y =>
      if h : x = y then isTrue (by rw [h]) else isFalse (by intro hc; cases hc; exact h rfl)
  | Except.error x, Except.error y =>
      if h : x = y then isTrue (by rw [h]) else isFalse (by intro hc; cases hc; exact h rfl)
  | Except.ok _, Except.error _ => isFalse (by intro hc; cases hc)
  | Except.error _, Except.ok _ => isFalse (by intro hc; cases hc)

/-- A pixel coordinate (x, y, layer, mip level) in a texture buffer. -/
structure Coord where
  x : Nat
  y : Nat
  layer : Nat
  mip : Nat
deriving DecidableEq

namespace TextureData

/-- Read a pixel at a packed coordinate. -/
def getC [Inhabited T] (td : TextureData T) (c : Coord) : T :=
  td.get_pixel c.x c.y c.layer c.mip

/-- Write a pixel at a packed coordinate. -/
def setC (td : TextureData T) (c : Coord) (v : T) : TextureData T :=
  td.set_pixel c.x c.y c.layer c.mip v

/-- Flat position of a packed coordinate. -/
def indexC (td : TextureData T) (c : Coord) : Nat :=
  td.pixel_index c.x c.y c.layer c.mip

/-- The bounds the debug_assert statements of get_pixel/get_mipmap/get_layer
demand of a coordinate. -/
def InRange (td : TextureData T) (c : Coord) : Prop :=
  c.x < td.mipmapped_width c.mip ∧ c.y < td.mipmapped_height c.mip ∧
    c.layer < td.depth ∧ c.mip < td.mipmaps

instance (td : TextureData T) (c : Coord) : Decidable (td.InRange c) := by
  unfold InRange; infer_instance

/-- Well-formed backing buffer: the length invariant established by new. -/
def wf (td : TextureData T) : Prop :=
  td.pixels.size = td.depth * td.layer_size

instance (td : TextureData T) : Decidable (td.wf) := by
  unfold wf; infer_instance

/-- Every source coordinate generate_mipmaps passes to get_pixel satisfies
the asserted bounds of get_pixel at level mipmap - 1. -/
def GenBounds (td : TextureData T) : Prop :=
  ∀ mipmap, mipmap < td.mipmaps → 1 ≤ mipmap →
    ∀ x, x < td.mipmapped_width mipmap → ∀ y, y < td.mipmapped_height mipmap →
      2 * x + 1 < td.mipmapped_width (mipmap - 1) ∧
        2 * y + 1 < td.mipmapped_height (mipmap - 1)

instance (td : TextureData T) : Decidable (td.GenBounds) := by
  unfold GenBounds; infer_instance

/-- Embedding of TextureData::generate_mipmaps.  The Rust loop bounds read
self.depth(), self.mipmaps(), self.mipmapped_height, self.mipmapped_width,
none of which the loop body changes (it only writes pixels), so the bounds
are read off the entry value td; the body reads and writes the evolving
accumulator exactly as the source does. -/
def generate_mipmaps (td : TextureData RGBA) : TextureData RGBA :=
  (List.range td.depth).foldl (fun a layer =>
    (List.range' 1 (td.mipmaps - 1)).foldl (fun a mipmap =>
      (List.range (td.mipmapped_height mipmap)).foldl (fun a y =>
        (List.range (td.mipmapped_width mipmap)).foldl (fun a x =>
          a.set_pixel x y layer mipmap (average
            (a.get_pixel (2 * x) (2 * y) layer (mipmap - 1))
            (a.get_pixel (2 * x + 1) (2 * y) layer (mipmap - 1))
            (a.get_pixel (2 * x + 1) (2 * y + 1) layer (mipmap - 1))
            (a.get_pixel (2 * x) (2 * y + 1) layer (mipmap - 1)))) a) a) a) td

/-- Embedding of TextureData::parse_tileset.  The decoded source image is
given as its dimensions W, H together with its pixel function img (the
claims about parse_tileset also establish that img is only ever sampled
inside those dimensions).  Image decoding failure, the one recoverable
error of the source function, happens before any of the code modelled
here runs and is therefore not modelled. -/
def parse_tileset (W H : Nat) (img : Nat → Nat → RGBA) (tile_w tile_h : Nat) :
    TextureData RGBA :=
  let expand_x := W / tile_w
  let expand_y := H / tile_h
  let base : TextureData RGBA :=
    { (new tile_w tile_h (expand_x * expand_y) MipMaps.all) with
        depth_divisor := Option.some expand_x }
  let filled :=
    ((List.range expand_y).flatMap
        (fun y => (List.range expand_x).map (fun x => (x + expand_x * y, x, y)))).foldl
      (fun a ixy =>
        ((List.range tile_h).flatMap
            (fun py => (List.range tile_w).map (fun px => (px, py)))).foldl
          (fun a pp =>
            a.set_pixel pp.1 pp.2 ixy.1 0
              (img (ixy.2.1 * tile_w + pp.1) (ixy.2.2 * tile_h + pp.2))) a)
      base
  filled.generate_mipmaps

end TextureData

/-- Row-major list of the coordinates (x, y) with x < w and y < h: the
iteration order of the nested for-loops of the source (y outer, x inner). -/
def pairList (w h : Nat) : List (Nat × Nat) :=
  (List.range h).flatMap (fun y => (List.range w).map (fun x => (x, y)))

namespace TextureData

/-- Fold that writes the value f a c at each coordinate of cs in order,
where f may read the evolving buffer a. -/
def writeFold (f : TextureData T → Coord → T) (cs : List Coord) (a : TextureData T) :
    TextureData T :=
  cs.foldl (fun a c => a.setC c (f a c)) a

/-- The value generate_mipmaps writes at a destination coordinate: the
average of the four level (mip - 1) pixels below it. -/
def mipStep (a : TextureData RGBA) (c : Coord) : RGBA :=
  average
    (a.get_pixel (2 * c.x) (2 * c.y) c.layer (c.mip - 1))
    (a.get_pixel (2 * c.x + 1) (2 * c.y) c.layer (c.mip - 1))
    (a.get_pixel (2 * c.x + 1) (2 * c.y + 1) c.layer (c.mip - 1))
    (a.get_pixel (2 * c.x) (2 * c.y + 1) c.layer (c.mip - 1))

/-- The four source coordinates generate_mipmaps reads for a destination
coordinate: (2x, 2y), (2x+1, 2y), (2x+1, 2y+1), (2x, 2y+1) at level mip - 1. -/
def r00 (c : Coord) : Coord := Coord.mk (2 * c.x) (2 * c.y) c.layer (c.mip - 1)

/-- Source coordinate (2x+1, 2y) at level mip - 1. -/
def r10 (c : Coord) : Coord := Coord.mk (2 * c.x + 1) (2 * c.y) c.layer (c.mip - 1)

/-- Source coordinate (2x+1, 2y+1) at level mip - 1. -/
def r11 (c : Coord) : Coord := Coord.mk (2 * c.x + 1) (2 * c.y + 1) c.layer (c.mip - 1)

/-- Source coordinate (2x, 2y+1) at level mip - 1. -/
def r01 (c : Coord) : Coord := Coord.mk (2 * c.x) (2 * c.y + 1) c.layer (c.mip - 1)

/-- The destination coordinates of one mip level of one layer, in the order
generate_mipmaps writes them. -/
def levelCoords (td : TextureData T) (layer mipmap : Nat) : List Coord :=
  (pairList (td.mipmapped_width mipmap) (td.mipmapped_height mipmap)).map
    (fun p => Coord.mk p.1 p.2 layer mipmap)

/-- The mip-level loop of generate_mipmaps for one layer, restructured:
process levels 1..n of the given layer (bounds taken from td0). -/
def mipLoop (td0 : TextureData RGBA) (layer n : Nat) (a : TextureData RGBA) :
    TextureData RGBA :=
  (List.range' 1 n).foldl (fun a mipmap => writeFold mipStep (td0.levelCoords layer mipmap) a) a

/-- The layer loop of generate_mipmaps, restructured: process layers 0..j-1. -/
def layerLoop (td0 : TextureData RGBA) (j : Nat) (a : TextureData RGBA) : TextureData RGBA :=
  (List.range j).foldl (fun a layer => mipLoop td0 layer (td0.mipmaps - 1) a) a

/-- The level-0 coordinates parse_tileset fills, in write order. -/
def tileCoords (ex ey tw th : Nat) : List Coord :=
  (pairList ex ey).flatMap (fun g =>
    (pairList tw th).map (fun p => Coord.mk p.1 p.2 (g.1 + ex * g.2) 0))

/-- The value parse_tileset writes at a level-0 coordinate: the source image
pixel of the tile its layer denotes (the grid position is recovered from the
layer index as (layer % ex, layer / ex)). -/
def tileValue (img : Nat → Nat → RGBA) (ex tw th : Nat) (c : Coord) : RGBA :=
  img ((c.layer % ex) * tw + c.x) ((c.layer / ex) * th + c.y)

/-- A concrete 2-by-2, one-layer buffer with a full mipmap pyramid and four
distinct level-0 pixels, used to instantiate the mipmap invariant. -/
def sampleBuffer : TextureData RGBA :=
  ((((new 2 2 1 MipMaps.all).set_pixel 0 0 0 0 ⟨10, 20, 30, 40⟩).set_pixel 1 0 0 0
      ⟨11, 21, 31, 41⟩).set_pixel 1 1 0 0 ⟨12, 22, 32, 42⟩).set_pixel 0 1 0 0 ⟨13, 23, 33, 43⟩

end TextureData

/-! ### Arithmetic facts about the size formulas -/

theorem mipmaped_size_pos (w l : Nat) : 1 ≤ mipmaped_size w l :=
  le_max_right _ _

theorem mipmaped_size_zero (w : Nat) : mipmaped_size w 0 = max w 1 := by
  simp [mipmaped_size]

theorem size_per_layer_succ (w h n : Nat) :
    size_per_layer w h (n + 1) =
      size_per_layer w h n + mipmaped_size w n * mipmaped_size h n := by
  unfold size_per_layer
  rw [List.range_succ, List.map_append, List.sum_append]
  simp

theorem size_per_layer_le (w h : Nat) {m n : Nat} (hmn : m ≤ n) :
    size_per_layer w h m ≤ size_per_layer w h n := by
  induction n, hmn using Nat.le_induction with
  | base => exact Nat.le_refl _
  | succ n hmn ih =>
      rw [size_per_layer_succ]
      exact Nat.le_trans ih (Nat.le_add_right _ _)

theorem le_size_per_layer (w h n : Nat) : n ≤ size_per_layer w h n := by
  induction n with
  | zero => simp
  | succ k ih =>
      rw [size_per_layer_succ]
      have h1 : 1 * 1 ≤ mipmaped_size w k * mipmaped_size h k :=
        Nat.mul_le_mul (mipmaped_size_pos w k) (mipmaped_size_pos h k)
      omega

theorem row_major_lt {x y w h : Nat} (hx : x < w) (hy : y < h) :
    x + y * w < w * h := by
  calc x + y * w < w + y * w := by omega
    _ = (y + 1) * w := by ring
    _ ≤ h * w := Nat.mul_le_mul_right _ hy
    _ = w * h := Nat.mul_comm _ _

theorem row_major_inj {x x2 y y2 w : Nat} (hx : x < w) (hx2 : x2 < w)
    (h : x + y * w = x2 + y2 * w) : x = x2 ∧ y = y2 := by
  have key : ∀ {u u2 v v2 : Nat}, u < w → v < v2 → u + v * w < u2 + v2 * w := by
    intro u u2 v v2 hu hv
    calc u + v * w < (v + 1) * w := by rw [Nat.succ_mul]; omega
      _ ≤ v2 * w := Nat.mul_le_mul_right _ hv
      _ ≤ u2 + v2 * w := Nat.le_add_left _ _
  rcases Nat.lt_trichotomy y y2 with hlt | heq | hgt
  · exact absurd h (Nat.ne_of_lt (key hx hlt))
  · subst heq; exact ⟨by omega, rfl⟩
  · exact absurd h.symm (Nat.ne_of_lt (key hx2 hgt))

/-! ### Array helper lemmas -/

theorem getD_setD_self {α : Type} (a : Array α) (i : Nat) (v d : α) (h : i < a.size) :
    (a.setD i v).getD i d = v := by
  unfold Array.setD Array.getD
  simp [h, Array.getElem_set]

theorem getD_setD_ne {α : Type} (a : Array α) {i j : Nat} (v d : α) (h : i ≠ j) :
    (a.setD j v).getD i d = a.getD i d := by
  unfold Array.setD
  by_cases hj : j < a.size
  · rw [dif_pos hj]
    have hs : (a.set ⟨j, hj⟩ v).size = a.size := Array.size_set _ _ _
    unfold Array.getD
    by_cases hi : i < a.size
    · rw [dif_pos (by rw [hs]; exact hi), dif_pos hi, Array.get_eq_getElem,
        Array.get_eq_getElem, Array.getElem_set, if_neg (by simpa using (Ne.symm h))]
    · rw [dif_neg (by rw [hs]; exact hi), dif_neg hi]
  · rw [dif_neg hj]

theorem getD_extract {α : Type} [Inhabited α] (a : Array α) (s e i : Nat)
    (hi : i < e - s) (he : e ≤ a.size) :
    (a.extract s e).getD i default = a.getD (s + i) default := by
  have hsz : (a.extract s e).size = e - s := by
    rw [Array.size_extract]; omega
  have hi2 : i < (a.extract s e).size := hsz ▸ hi
  have hsi : s + i < a.size := by omega
  unfold Array.getD
  rw [dif_pos hi2, dif_pos hsi]
  exact Array.getElem_extract hi2

/-! ### Shape preservation -/

namespace TextureData

/-- Two buffers agree on every field the addressing arithmetic reads,
differing at most in pixel contents. -/
def SameShape (a b : TextureData T) : Prop :=
  a.width = b.width ∧ a.height = b.height ∧ a.depth = b.depth ∧
    a.mipmaps = b.mipmaps ∧ a.depth_divisor = b.depth_divisor ∧
      a.pixels.size = b.pixels.size

theorem SameShape.rfl (a : TextureData T) : SameShape a a :=
  ⟨Eq.refl _, Eq.refl _, Eq.refl _, Eq.refl _, Eq.refl _, Eq.refl _⟩

theorem SameShape.trans {a b c : TextureData T} (h1 : SameShape a b) (h2 : SameShape b c) :
    SameShape a c := by
  obtain ⟨p1, p2, p3, p4, p5, p6⟩ := h1
  obtain ⟨q1, q2, q3, q4, q5, q6⟩ := h2
  exact ⟨p1.trans q1, p2.trans q2, p3.trans q3, p4.trans q4, p5.trans q5, p6.trans q6⟩

theorem sameShape_set_pixel (td : TextureData T) (x y layer mipmap : Nat) (v : T) :
    SameShape (td.set_pixel x y layer mipmap v) td :=
  ⟨Eq.refl _, Eq.refl _, Eq.refl _, Eq.refl _, Eq.refl _, Array.size_setD _ _ _⟩

theorem sameShape_setC (td : TextureData T) (c : Coord) (v : T) :
    SameShape (td.setC c v) td :=
  sameShape_set_pixel td c.x c.y c.layer c.mip v

theorem SameShape.mipmapped_width_eq {a b : TextureData T} (h : SameShape a b) (m : Nat) :
    a.mipmapped_width m = b.mipmapped_width m := by
  unfold mipmapped_width; rw [h.1]

theorem SameShape.mipmapped_height_eq {a b : TextureData T} (h : SameShape a b) (m : Nat) :
    a.mipmapped_height m = b.mipmapped_height m := by
  unfold mipmapped_height; rw [h.2.1]

theorem SameShape.layer_size_eq {a b : TextureData T} (h : SameShape a b) :
    a.layer_size = b.layer_size := by
  unfold layer_size; rw [h.1, h.2.1, h.2.2.2.1]

theorem SameShape.indexC_eq {a b : TextureData T} (h : SameShape a b) (c : Coord) :
    a.indexC c = b.indexC c := by
  unfold indexC pixel_index
  rw [h.layer_size_eq, h.1, h.2.1, h.mipmapped_width_eq]

theorem SameShape.inRange_iff {a b : TextureData T} (h : SameShape a b) (c : Coord) :
    a.InRange c ↔ b.InRange c := by
  unfold InRange
  rw [h.mipmapped_width_eq, h.mipmapped_height_eq, h.2.2.1, h.2.2.2.1]

theorem SameShape.wf_iff {a b : TextureData T} (h : SameShape a b) :
    a.wf ↔ b.wf := by
  unfold wf
  rw [h.layer_size_eq, h.2.2.1, h.2.2.2.2.2]

theorem SameShape.genBounds_iff {a b : TextureData T} (h : SameShape a b) :
    a.GenBounds ↔ b.GenBounds := by
  unfold GenBounds
  simp only [h.mipmapped_width_eq, h.mipmapped_height_eq, h.2.2.2.1]

/-! ### Flat indexing: bounds and injectivity -/

theorem offset_lt_layer_size (td : TextureData T) {c : Coord} (h : td.InRange c) :
    size_per_layer td.width td.height c.mip + (c.x + c.y * td.mipmapped_width c.mip) <
      td.layer_size := by
  obtain ⟨hx, hy, hl, hm⟩ := h
  have h1 : c.x + c.y * td.mipmapped_width c.mip <
      td.mipmapped_width c.mip * td.mipmapped_height c.mip := row_major_lt hx hy
  have h2 := size_per_layer_succ td.width td.height c.mip
  have h3 : size_per_layer td.width td.height (c.mip + 1) ≤ td.layer_size :=
    size_per_layer_le td.width td.height hm
  unfold mipmapped_width mipmapped_height at h1
  unfold mipmapped_width
  omega

theorem indexC_lt (td : TextureData T) {c : Coord} (hwf : td.wf) (h : td.InRange c) :
    td.indexC c < td.pixels.size := by
  have hoff := offset_lt_layer_size td h
  have hl : c.layer < td.depth := h.2.2.1
  unfold wf at hwf
  unfold indexC pixel_index
  have h1 : c.layer * td.layer_size + td.layer_size ≤ td.depth * td.layer_size := by
    have : (c.layer + 1) * td.layer_size ≤ td.depth * td.layer_size :=
      Nat.mul_le_mul_right _ hl
    rw [Nat.succ_mul] at this
    exact this
  omega

theorem indexC_lt_of_layer_lt (td : TextureData T) {c c2 : Coord}
    (h : td.InRange c) (hl : c.layer < c2.layer) :
    td.indexC c < td.indexC c2 := by
  have h1 := offset_lt_layer_size td h
  unfold indexC pixel_index
  have h2 : (c.layer + 1) * td.layer_size ≤ c2.layer * td.layer_size :=
    Nat.mul_le_mul_right _ hl
  rw [Nat.succ_mul] at h2
  omega

theorem indexC_lt_of_mip_lt (td : TextureData T) {c c2 : Coord}
    (h : td.InRange c) (hl : c.layer = c2.layer) (hm : c.mip < c2.mip) :
    td.indexC c < td.indexC c2 := by
  obtain ⟨hx, hy, _, _⟩ := h
  have h1 : c.x + c.y * td.mipmapped_width c.mip <
      td.mipmapped_width c.mip * td.mipmapped_height c.mip := row_major_lt hx hy
  have h2 := size_per_layer_succ td.width td.height c.mip
  have h3 : size_per_layer td.width td.height (c.mip + 1) ≤
      size_per_layer td.width td.height c2.mip :=
    size_per_layer_le td.width td.height hm
  unfold mipmapped_width mipmapped_height at h1
  unfold indexC pixel_index mipmapped_width
  rw [hl]
  omega

theorem indexC_inj (td : TextureData T) {c c2 : Coord}
    (h : td.InRange c) (h2 : td.InRange c2) (hne : c ≠ c2) :
    td.indexC c ≠ td.indexC c2 := by
  rcases Nat.lt_trichotomy c.layer c2.layer with hL | hL | hL
  · exact Nat.ne_of_lt (indexC_lt_of_layer_lt td h hL)
  · rcases Nat.lt_trichotomy c.mip c2.mip with hM | hM | hM
    · exact Nat.ne_of_lt (indexC_lt_of_mip_lt td h hL hM)
    · intro heq
      unfold indexC pixel_index at heq
      rw [hL, hM] at heq
      have heq2 : c.x + c.y * td.mipmapped_width c2.mip =
          c2.x + c2.y * td.mipmapped_width c2.mip := by omega
      have hx : c.x < td.mipmapped_width c2.mip := hM ▸ h.1
      have hx2 : c2.x < td.mipmapped_width c2.mip := h2.1
      obtain ⟨e1, e2⟩ := row_major_inj hx hx2 heq2
      apply hne
      cases c; cases c2
      simp_all
    · exact (Nat.ne_of_lt (indexC_lt_of_mip_lt td h2 hL.symm hM)).symm
  · exact (Nat.ne_of_lt (indexC_lt_of_layer_lt td h2 hL)).symm

end TextureData

namespace TextureData

theorem getC_eq_getD [Inhabited T] (td : TextureData T) {c : Coord}
    (hwf : td.wf) (h : td.InRange c) :
    td.getC c = td.pixels.getD (td.indexC c) default := by
  obtain ⟨hx, hy, hl, hm⟩ := h
  have hWF : td.pixels.size = td.depth * td.layer_size := hwf
  have hlayer_end : (c.layer + 1) * td.layer_size ≤ td.pixels.size := by
    rw [hWF]; exact Nat.mul_le_mul_right _ hl
  have hlsize : (td.get_layer c.layer).size = td.layer_size := by
    unfold get_layer
    rw [Array.size_extract, Nat.min_eq_left hlayer_end, Nat.succ_mul]
    omega
  have hi0 : c.x + c.y * td.mipmapped_width c.mip <
      size_per_layer td.width td.height (c.mip + 1) -
        size_per_layer td.width td.height c.mip := by
    have h1 := row_major_lt hx hy
    have h2 := size_per_layer_succ td.width td.height c.mip
    unfold mipmapped_width mipmapped_height at *
    omega
  have hmle : size_per_layer td.width td.height (c.mip + 1) ≤ (td.get_layer c.layer).size := by
    rw [hlsize]; exact size_per_layer_le td.width td.height hm
  unfold getC get_pixel get_mipmap
  rw [getD_extract _ _ _ _ hi0 hmle]
  unfold get_layer
  have hoff := offset_lt_layer_size td (c := c) ⟨hx, hy, hl, hm⟩
  have hi1 : size_per_layer td.width td.height c.mip +
      (c.x + c.y * td.mipmapped_width c.mip) <
      (c.layer + 1) * td.layer_size - c.layer * td.layer_size := by
    rw [Nat.succ_mul]; omega
  rw [getD_extract _ _ _ _ hi1 hlayer_end]
  unfold indexC pixel_index
  congr 1
  omega

theorem getC_setC_self [Inhabited T] (td : TextureData T) {c : Coord} (v : T)
    (hwf : td.wf) (h : td.InRange c) :
    (td.setC c v).getC c = v := by
  have hsh := sameShape_setC td c v
  have hwf2 : (td.setC c v).wf := hsh.wf_iff.mpr hwf
  have h2 : (td.setC c v).InRange c := (hsh.inRange_iff c).mpr h
  rw [getC_eq_getD _ hwf2 h2, hsh.indexC_eq c]
  show (td.pixels.setD (td.indexC c) v).getD (td.indexC c) default = v
  exact getD_setD_self _ _ _ _ (indexC_lt td hwf h)

theorem getC_setC_ne [Inhabited T] (td : TextureData T) {c c2 : Coord} (v : T)
    (hwf : td.wf) (h : td.InRange c) (h2 : td.InRange c2) (hne : c ≠ c2) :
    (td.setC c2 v).getC c = td.getC c := by
  have hsh := sameShape_setC td c2 v
  rw [getC_eq_getD _ (hsh.wf_iff.mpr hwf) ((hsh.inRange_iff c).mpr h), hsh.indexC_eq c,
    getC_eq_getD td hwf h]
  show (td.pixels.setD (td.indexC c2) v).getD (td.indexC c) default = _
  exact getD_setD_ne _ _ _ (indexC_inj td h h2 hne)

end TextureData

/-! ### The coordinate lists -/

theorem mem_pairList {w h : Nat} {p : Nat × Nat} :
    p ∈ pairList w h ↔ p.1 < w ∧ p.2 < h := by
  unfold pairList
  simp only [List.mem_flatMap, List.mem_map, List.mem_range]
  constructor
  · rintro ⟨y, hy, x, hx, rfl⟩
    exact ⟨hx, hy⟩
  · rintro ⟨h1, h2⟩
    exact ⟨p.2, h2, p.1, h1, rfl⟩

theorem nodup_pairList (w h : Nat) : (pairList w h).Nodup := by
  unfold pairList
  rw [List.nodup_flatMap]
  constructor
  · intro y _
    exact List.Nodup.map (fun a b hab => by simpa using congrArg Prod.fst hab)
      (List.nodup_range w)
  · have hpw := List.pairwise_lt_range h
    apply hpw.imp
    intro y1 y2 hlt p hp1 hp2
    simp only [List.mem_map, List.mem_range] at hp1 hp2
    obtain ⟨x1, _, rfl⟩ := hp1
    obtain ⟨x2, _, he⟩ := hp2
    cases he
    omega

namespace TextureData

theorem nodup_levelCoords (td : TextureData T) (layer mipmap : Nat) :
    (td.levelCoords layer mipmap).Nodup := by
  unfold levelCoords
  exact List.Nodup.map
    (fun a b hab => by
      have h1 := congrArg Coord.x hab
      have h2 := congrArg Coord.y hab
      simp only at h1 h2
      exact Prod.ext h1 h2)
    (nodup_pairList _ _)

theorem mem_levelCoords {td : TextureData T} {layer mipmap : Nat} {c : Coord} :
    c ∈ td.levelCoords layer mipmap ↔
      c.x < td.mipmapped_width mipmap ∧ c.y < td.mipmapped_height mipmap ∧
        c.layer = layer ∧ c.mip = mipmap := by
  unfold levelCoords
  simp only [List.mem_map]
  constructor
  · rintro ⟨p, hp, rfl⟩
    obtain ⟨h1, h2⟩ := mem_pairList.mp hp
    exact ⟨h1, h2, rfl, rfl⟩
  · rintro ⟨h1, h2, h3, h4⟩
    refine ⟨(c.x, c.y), mem_pairList.mpr ⟨h1, h2⟩, ?_⟩
    cases c
    simp_all

theorem mem_tileCoords {ex ey tw th : Nat} {c : Coord} :
    c ∈ tileCoords ex ey tw th ↔
      ∃ gx gy, gx < ex ∧ gy < ey ∧ c.x < tw ∧ c.y < th ∧
        c.layer = gx + ex * gy ∧ c.mip = 0 := by
  unfold tileCoords
  simp only [List.mem_flatMap, List.mem_map]
  constructor
  · rintro ⟨g, hg, p, hp, rfl⟩
    obtain ⟨hg1, hg2⟩ := mem_pairList.mp hg
    obtain ⟨hp1, hp2⟩ := mem_pairList.mp hp
    exact ⟨g.1, g.2, hg1, hg2, hp1, hp2, rfl, rfl⟩
  · rintro ⟨gx, gy, h1, h2, h3, h4, h5, h6⟩
    refine ⟨(gx, gy), mem_pairList.mpr ⟨h1, h2⟩, (c.x, c.y), mem_pairList.mpr ⟨h3, h4⟩, ?_⟩
    cases c
    simp_all

theorem nodup_tileCoords (ex ey tw th : Nat) : (tileCoords ex ey tw th).Nodup := by
  unfold tileCoords
  rw [List.nodup_flatMap]
  constructor
  · intro g _
    exact List.Nodup.map
      (fun a b hab => by
        have h1 := congrArg Coord.x hab
        have h2 := congrArg Coord.y hab
        simp only at h1 h2
        exact Prod.ext h1 h2)
      (nodup_pairList _ _)
  · apply List.Pairwise.imp_of_mem ?_ (nodup_pairList ex ey)
    intro g1 g2 hg1 hg2 hne c hc1 hc2
    simp only [List.mem_map] at hc1 hc2
    obtain ⟨p1, _, rfl⟩ := hc1
    obtain ⟨p2, _, he⟩ := hc2
    have hl := congrArg Coord.layer he
    simp only at hl
    rw [Nat.mul_comm ex g2.2, Nat.mul_comm ex g1.2] at hl
    obtain ⟨hg1x, _⟩ := mem_pairList.mp hg1
    obtain ⟨hg2x, _⟩ := mem_pairList.mp hg2
    obtain ⟨e1, e2⟩ := row_major_inj hg2x hg1x hl
    exact hne (Prod.ext e1.symm e2.symm)

/-! ### The write fold -/

theorem writeFold_spec [Inhabited T] (td0 : TextureData T) (hwf : td0.wf)
    (f : TextureData T → Coord → T) :
    ∀ (cs : List Coord) (a : TextureData T), SameShape a td0 →
      (∀ c ∈ cs, td0.InRange c) → cs.Nodup →
      (∀ b, SameShape b td0 → ∀ c ∈ cs, ∀ c2 ∈ cs, ∀ v, f (b.setC c2 v) c = f b c) →
      SameShape (writeFold f cs a) td0 ∧
        (∀ c, td0.InRange c → c ∉ cs → (writeFold f cs a).getC c = a.getC c) ∧
        (∀ c ∈ cs, (writeFold f cs a).getC c = f a c) := by
  intro cs
  induction cs with
  | nil =>
      intro a hsh _ _ _
      exact ⟨hsh, fun c _ _ => rfl, fun c hc => absurd hc (List.not_mem_nil c)⟩
  | cons c0 rest ih =>
      intro a hsh hin hnd hf
      have hin0 : td0.InRange c0 := hin c0 (List.mem_cons_self _ _)
      have hsh1 : SameShape (a.setC c0 (f a c0)) td0 := (sameShape_setC a c0 _).trans hsh
      have hwa : a.wf := hsh.wf_iff.mpr hwf
      have hina : ∀ c, td0.InRange c → a.InRange c := fun c hc => (hsh.inRange_iff c).mpr hc
      obtain ⟨ihsh, ihframe, ihval⟩ := ih (a.setC c0 (f a c0)) hsh1
        (fun c hc => hin c (List.mem_cons_of_mem _ hc))
        (List.Nodup.of_cons hnd)
        (fun b hb c hc c2 hc2 v =>
          hf b hb c (List.mem_cons_of_mem _ hc) c2 (List.mem_cons_of_mem _ hc2) v)
      have hwr : writeFold f (c0 :: rest) a = writeFold f rest (a.setC c0 (f a c0)) := rfl
      refine ⟨hwr ▸ ihsh, ?_, ?_⟩
      · intro c hc hnotin
        rw [hwr, ihframe c hc (fun hm => hnotin (List.mem_cons_of_mem _ hm))]
        exact getC_setC_ne a _ hwa (hina c hc) (hina c0 hin0)
          (fun he => hnotin (he ▸ List.mem_cons_self _ _))
      · intro c hc
        rcases List.mem_cons.mp hc with rfl | hcr
        · have hnotin0 : c ∉ rest := (List.nodup_cons.mp hnd).1
          rw [hwr, ihframe c hin0 hnotin0]
          exact getC_setC_self a _ hwa (hina c hin0)
        · rw [hwr, ihval c hcr]
          exact hf a hsh c (List.mem_cons_of_mem _ hcr) c0 (List.mem_cons_self _ _) (f a c0)

end TextureData

/-! ### Restructuring the generation loops -/

theorem foldl_pairList {β : Type} (g : β → Nat → Nat → β) (w h : Nat) (b : β) :
    (pairList w h).foldl (fun a p => g a p.1 p.2) b =
      (List.range h).foldl (fun a y => (List.range w).foldl (fun a x => g a x y) a) b := by
  unfold pairList
  rw [show (List.range h).flatMap (fun y => (List.range w).map (fun x => (x, y))) =
      ((List.range h).map (fun y => (List.range w).map (fun x => (x, y)))).flatten from rfl]
  rw [List.foldl_flatten, List.foldl_map]
  simp only [List.foldl_map]

namespace TextureData

theorem mipStep_eq_getC (a : TextureData RGBA) (c : Coord) :
    mipStep a c = average (a.getC (r00 c)) (a.getC (r10 c)) (a.getC (r11 c)) (a.getC (r01 c)) :=
  rfl

theorem generate_mipmaps_eq (td : TextureData RGBA) :
    td.generate_mipmaps =
      (List.range td.depth).foldl (fun a layer =>
        (List.range' 1 (td.mipmaps - 1)).foldl (fun a mipmap =>
          writeFold mipStep (td.levelCoords layer mipmap) a) a) td := by
  unfold generate_mipmaps
  apply List.foldl_ext
  intro a layer _
  apply List.foldl_ext
  intro a2 mipmap _
  have hconv := foldl_pairList
    (fun (a : TextureData RGBA) x y => a.set_pixel x y layer mipmap (average
      (a.get_pixel (2 * x) (2 * y) layer (mipmap - 1))
      (a.get_pixel (2 * x + 1) (2 * y) layer (mipmap - 1))
      (a.get_pixel (2 * x + 1) (2 * y + 1) layer (mipmap - 1))
      (a.get_pixel (2 * x) (2 * y + 1) layer (mipmap - 1))))
    (td.mipmapped_width mipmap) (td.mipmapped_height mipmap) a2
  rw [← hconv]
  unfold writeFold levelCoords
  rw [List.foldl_map]
  rfl

theorem reads_inRange (td0 : TextureData T) (hgb : td0.GenBounds) {c : Coord}
    (hin : td0.InRange c) (hm : 1 ≤ c.mip) :
    td0.InRange (r00 c) ∧ td0.InRange (r10 c) ∧ td0.InRange (r11 c) ∧ td0.InRange (r01 c) := by
  obtain ⟨hx, hy, hl, hmm⟩ := hin
  obtain ⟨hbx, hby⟩ := hgb c.mip hmm hm c.x hx c.y hy
  have hm1 : c.mip - 1 < td0.mipmaps := by omega
  refine ⟨⟨?_, ?_, hl, hm1⟩, ⟨?_, ?_, hl, hm1⟩, ⟨?_, ?_, hl, hm1⟩, ⟨?_, ?_, hl, hm1⟩⟩ <;>
    simp only [r00, r10, r11, r01] <;> omega

theorem writeLevel_spec (td0 : TextureData RGBA) (hwf : td0.wf) (hgb : td0.GenBounds)
    {layer mipmap : Nat} (hl : layer < td0.depth) (hm1 : 1 ≤ mipmap) (hm : mipmap < td0.mipmaps)
    (a : TextureData RGBA) (hsh : SameShape a td0) :
    SameShape (writeFold mipStep (td0.levelCoords layer mipmap) a) td0 ∧
      (∀ c, td0.InRange c → ¬(c.layer = layer ∧ c.mip = mipmap) →
        (writeFold mipStep (td0.levelCoords layer mipmap) a).getC c = a.getC c) ∧
      (∀ x y, x < td0.mipmapped_width mipmap → y < td0.mipmapped_height mipmap →
        (writeFold mipStep (td0.levelCoords layer mipmap) a).getC (Coord.mk x y layer mipmap) =
          mipStep a (Coord.mk x y layer mipmap)) := by
  have hin : ∀ c ∈ td0.levelCoords layer mipmap, td0.InRange c := by
    intro c hc
    obtain ⟨h1, h2, h3, h4⟩ := mem_levelCoords.mp hc
    exact ⟨h4 ▸ h1, h4 ▸ h2, h3 ▸ hl, h4 ▸ hm⟩
  have hf : ∀ b, SameShape b td0 → ∀ c ∈ td0.levelCoords layer mipmap,
      ∀ c2 ∈ td0.levelCoords layer mipmap, ∀ v, mipStep (b.setC c2 v) c = mipStep b c := by
    intro b hb c hc c2 hc2 v
    have hIc : td0.InRange c := hin c hc
    have hIc2 : td0.InRange c2 := hin c2 hc2
    have hcm : c.mip = mipmap := (mem_levelCoords.mp hc).2.2.2
    have hc2m : c2.mip = mipmap := (mem_levelCoords.mp hc2).2.2.2
    have hreads := reads_inRange td0 hgb hIc (by omega)
    have hbwf : b.wf := hb.wf_iff.mpr hwf
    have htr : ∀ d, td0.InRange d → b.InRange d := fun d hd => (hb.inRange_iff d).mpr hd
    have hmipne : ∀ d : Coord, d.mip = c.mip - 1 → d ≠ c2 := by
      intro d hd he
      rw [he] at hd
      omega
    rw [mipStep_eq_getC, mipStep_eq_getC]
    rw [getC_setC_ne b v hbwf (htr _ hreads.1) (htr _ hIc2) (hmipne _ rfl)]
    rw [getC_setC_ne b v hbwf (htr _ hreads.2.1) (htr _ hIc2) (hmipne _ rfl)]
    rw [getC_setC_ne b v hbwf (htr _ hreads.2.2.1) (htr _ hIc2) (hmipne _ rfl)]
    rw [getC_setC_ne b v hbwf (htr _ hreads.2.2.2) (htr _ hIc2) (hmipne _ rfl)]
  obtain ⟨m1, m2, m3⟩ := writeFold_spec td0 hwf mipStep (td0.levelCoords layer mipmap) a hsh
    hin (nodup_levelCoords td0 layer mipmap) hf
  refine ⟨m1, ?_, ?_⟩
  · intro c hc hcond
    apply m2 c hc
    intro hmem
    obtain ⟨_, _, h3, h4⟩ := mem_levelCoords.mp hmem
    exact hcond ⟨h3, h4⟩
  · intro x y hx hy
    exact m3 (Coord.mk x y layer mipmap) (mem_levelCoords.mpr ⟨hx, hy, rfl, rfl⟩)

end TextureData

namespace TextureData

theorem generate_mipmaps_eq_layerLoop (td : TextureData RGBA) :
    td.generate_mipmaps = layerLoop td td.depth td :=
  generate_mipmaps_eq td

theorem mipStep_congr_frame (td0 : TextureData RGBA) (hgb : td0.GenBounds) {c : Coord}
    (hc : td0.InRange c) (hm1 : 1 ≤ c.mip) (A B : TextureData RGBA)
    (hread : ∀ d, td0.InRange d → d.mip = c.mip - 1 → d.layer = c.layer →
      A.getC d = B.getC d) :
    mipStep A c = mipStep B c := by
  have hr := reads_inRange td0 hgb hc hm1
  rw [mipStep_eq_getC, mipStep_eq_getC,
    hread _ hr.1 rfl rfl, hread _ hr.2.1 rfl rfl,
    hread _ hr.2.2.1 rfl rfl, hread _ hr.2.2.2 rfl rfl]

theorem mipLoop_spec (td0 : TextureData RGBA) (hwf : td0.wf) (hgb : td0.GenBounds)
    {layer : Nat} (hl : layer < td0.depth) :
    ∀ n, (∀ m, 1 ≤ m → m ≤ n → m < td0.mipmaps) → ∀ a, SameShape a td0 →
      SameShape (mipLoop td0 layer n a) td0 ∧
        (∀ c, td0.InRange c → (c.layer ≠ layer ∨ c.mip = 0 ∨ n < c.mip) →
          (mipLoop td0 layer n a).getC c = a.getC c) ∧
        (∀ c, td0.InRange c → c.layer = layer → 1 ≤ c.mip → c.mip ≤ n →
          (mipLoop td0 layer n a).getC c = mipStep (mipLoop td0 layer n a) c) := by
  intro n
  induction n with
  | zero =>
      intro _ a hsh
      exact ⟨hsh, fun c _ _ => rfl, fun c _ _ h1 h2 => by omega⟩
  | succ n ih =>
      intro hn a hsh
      have hn1 : n + 1 < td0.mipmaps := hn (n + 1) (by omega) (Nat.le_refl _)
      have hsplit : mipLoop td0 layer (n + 1) a =
          writeFold mipStep (td0.levelCoords layer (n + 1)) (mipLoop td0 layer n a) := by
        unfold mipLoop
        rw [List.range'_concat, List.foldl_append]
        have h11 : 1 + 1 * n = n + 1 := by omega
        rw [h11]
        simp only [List.foldl_cons, List.foldl_nil]
      obtain ⟨ps, pf, pv⟩ := ih (fun m h1 h2 => hn m h1 (by omega)) a hsh
      obtain ⟨ws, wfm, wv⟩ :=
        writeLevel_spec td0 hwf hgb hl (by omega : 1 ≤ n + 1) hn1 (mipLoop td0 layer n a) ps
      rw [hsplit]
      refine ⟨ws, ?_, ?_⟩
      · intro c hc hcond
        rw [wfm c hc ?hne]
        case hne =>
          rintro ⟨e1, e2⟩
          rcases hcond with h | h | h
          · exact h e1
          · omega
          · omega
        apply pf c hc
        rcases hcond with h | h | h
        · exact Or.inl h
        · exact Or.inr (Or.inl h)
        · exact Or.inr (Or.inr (by omega))
      · intro c hc hcl hm1 hmn
        by_cases hceq : c.mip = n + 1
        · obtain ⟨cx, cy, cl, cm⟩ := c
          simp only at hcl hceq hm1 hmn
          subst hcl
          subst hceq
          rw [wv cx cy hc.1 hc.2.1]
          exact (mipStep_congr_frame td0 hgb hc (Nat.succ_le_succ (Nat.zero_le n)) _ _
            (fun d hd hdm _ => wfm d hd (by
              rintro ⟨_, e2⟩
              simp only at hdm
              omega))).symm
        · have hle : c.mip ≤ n := by omega
          rw [wfm c hc (fun hpair => hceq hpair.2), pv c hc hcl hm1 hle]
          exact mipStep_congr_frame td0 hgb hc hm1 _ _
            (fun d hd hdm _ => (wfm d hd (by rintro ⟨_, e2⟩; omega)).symm)

theorem layerLoop_spec (td0 : TextureData RGBA) (hwf : td0.wf) (hgb : td0.GenBounds) :
    ∀ j, j ≤ td0.depth →
      SameShape (layerLoop td0 j td0) td0 ∧
        (∀ c, td0.InRange c → (c.mip = 0 ∨ j ≤ c.layer) →
          (layerLoop td0 j td0).getC c = td0.getC c) ∧
        (∀ c, td0.InRange c → c.layer < j → 1 ≤ c.mip →
          (layerLoop td0 j td0).getC c = mipStep (layerLoop td0 j td0) c) := by
  intro j
  induction j with
  | zero =>
      intro _
      exact ⟨SameShape.rfl td0, fun c _ _ => rfl, fun c _ h1 _ => by omega⟩
  | succ j ih =>
      intro hj
      have hsplit : layerLoop td0 (j + 1) td0 =
          mipLoop td0 j (td0.mipmaps - 1) (layerLoop td0 j td0) := by
        unfold layerLoop
        rw [List.range_succ, List.foldl_append]
        simp only [List.foldl_cons, List.foldl_nil]
      obtain ⟨ps, pf, pv⟩ := ih (by omega)
      have hbound : ∀ m, 1 ≤ m → m ≤ td0.mipmaps - 1 → m < td0.mipmaps := by
        intro m h1 h2
        omega
      obtain ⟨ms, mf, mg⟩ :=
        mipLoop_spec td0 hwf hgb (by omega : j < td0.depth) (td0.mipmaps - 1) hbound
          (layerLoop td0 j td0) ps
      rw [hsplit]
      refine ⟨ms, ?_, ?_⟩
      · intro c hc hcond
        rw [mf c hc ?hcnd]
        case hcnd =>
          rcases hcond with h | h
          · exact Or.inr (Or.inl h)
          · exact Or.inl (by omega)
        apply pf c hc
        rcases hcond with h | h
        · exact Or.inl h
        · exact Or.inr (by omega)
      · intro c hc hcl hm1
        have hmlt : c.mip < td0.mipmaps := hc.2.2.2
        by_cases hceq : c.layer = j
        · exact mg c hc hceq hm1 (by omega)
        · have hlt : c.layer < j := by omega
          rw [mf c hc (Or.inl hceq), pv c hc hlt hm1]
          exact mipStep_congr_frame td0 hgb hc hm1 _ _
            (fun d hd _ hdl => (mf d hd (Or.inl (by omega))).symm)

/-- Full specification of generate_mipmaps: shape is preserved, level-0
pixels are untouched, and every higher level satisfies the box-filter
equation with respect to the final buffer. -/
theorem generate_mipmaps_spec (td : TextureData RGBA) (hwf : td.wf) (hgb : td.GenBounds) :
    SameShape td.generate_mipmaps td ∧
      (∀ c, td.InRange c → c.mip = 0 → td.generate_mipmaps.getC c = td.getC c) ∧
      (∀ c, td.InRange c → 1 ≤ c.mip →
        td.generate_mipmaps.getC c = mipStep td.generate_mipmaps c) := by
  obtain ⟨s, f, g⟩ := layerLoop_spec td hwf hgb td.depth (Nat.le_refl _)
  rw [generate_mipmaps_eq_layerLoop]
  exact ⟨s, fun c hc h0 => f c hc (Or.inl h0), fun c hc h1 => g c hc hc.2.2.1 h1⟩

end TextureData

/-! ### Restructuring the tileset fill loops -/

theorem foldl_flatMap {α β γ : Type} (l : List α) (g : α → List β) (f : γ → β → γ) (b : γ) :
    (l.flatMap g).foldl f b = l.foldl (fun a x => (g x).foldl f a) b := by
  rw [show l.flatMap g = (l.map g).flatten from rfl, List.foldl_flatten, List.foldl_map]

namespace TextureData

theorem tileFill_eq (img : Nat → Nat → RGBA) (ex ey tw th : Nat) (base : TextureData RGBA) :
    ((List.range ey).flatMap (fun y => (List.range ex).map (fun x => (x + ex * y, x, y)))).foldl
      (fun a ixy =>
        ((List.range th).flatMap (fun py => (List.range tw).map (fun px => (px, py)))).foldl
          (fun a pp => a.set_pixel pp.1 pp.2 ixy.1 0
            (img (ixy.2.1 * tw + pp.1) (ixy.2.2 * th + pp.2))) a)
      base =
    writeFold (fun _ c => tileValue img ex tw th c) (tileCoords ex ey tw th) base := by
  unfold writeFold tileCoords pairList
  simp only [foldl_flatMap, List.foldl_map]
  apply List.foldl_ext
  intro a gy hgy
  apply List.foldl_ext
  intro a2 gx hgx
  apply List.foldl_ext
  intro a3 py _
  apply List.foldl_ext
  intro a4 px _
  rw [List.mem_range] at hgx
  have hex : 0 < ex := by omega
  show a4.set_pixel px py (gx + ex * gy) 0 (img (gx * tw + px) (gy * th + py)) =
    a4.set_pixel px py (gx + ex * gy) 0
      (img ((gx + ex * gy) % ex * tw + px) ((gx + ex * gy) / ex * th + py))
  rw [Nat.add_mul_mod_self_left, Nat.mod_eq_of_lt hgx,
    Nat.add_mul_div_left _ _ hex, Nat.div_eq_of_lt hgx, Nat.zero_add]

theorem parse_tileset_eq (W H : Nat) (img : Nat → Nat → RGBA) (tw th : Nat) :
    parse_tileset W H img tw th =
      generate_mipmaps (writeFold (fun _ c => tileValue img (W / tw) tw th c)
        (tileCoords (W / tw) (H / th) tw th)
        { new tw th (W / tw * (H / th)) MipMaps.all with
            depth_divisor := Option.some (W / tw) }) := by
  unfold parse_tileset
  dsimp only
  rw [tileFill_eq]

end TextureData

namespace TextureData

theorem wf_new {T : Type} [Zero T] (w h d : Nat) (p : MipMaps) : (new (T := T) w h d p).wf := by
  show (mkArray (size_per_layer w h (mipmapCount w h p) * d) (0 : T)).size =
    d * size_per_layer w h (mipmapCount w h p)
  rw [Array.size_mkArray, Nat.mul_comm]

/-- Combined specification of parse_tileset: the result has the shape of the
buffer new builds (with depth_divisor = Some (W / tw)), and every level-0
pixel of layer gx + (W / tw) * gy holds the source image pixel of tile
(gx, gy).  The hypothesis is the bound the debug_assert statements place on
the mipmap generation pass (see GenBounds); it depends only on tw, th. -/
theorem parse_tileset_spec (W H : Nat) (img : Nat → Nat → RGBA) (tw th : Nat)
    (hgb : (new (T := RGBA) tw th (W / tw * (H / th)) MipMaps.all).GenBounds) :
    SameShape (parse_tileset W H img tw th)
        { new (T := RGBA) tw th (W / tw * (H / th)) MipMaps.all with
            depth_divisor := Option.some (W / tw) } ∧
      ∀ gx gy px py, gx < W / tw → gy < H / th → px < tw → py < th →
        (parse_tileset W H img tw th).get_pixel px py (gx + W / tw * gy) 0 =
          img (gx * tw + px) (gy * th + py) := by
  have hwfb : ({ new (T := RGBA) tw th (W / tw * (H / th)) MipMaps.all with
      depth_divisor := Option.some (W / tw) } : TextureData RGBA).wf :=
    wf_new tw th (W / tw * (H / th)) MipMaps.all
  have hgbb : ({ new (T := RGBA) tw th (W / tw * (H / th)) MipMaps.all with
      depth_divisor := Option.some (W / tw) } : TextureData RGBA).GenBounds := hgb
  have hin : ∀ c ∈ tileCoords (W / tw) (H / th) tw th,
      ({ new (T := RGBA) tw th (W / tw * (H / th)) MipMaps.all with
          depth_divisor := Option.some (W / tw) } : TextureData RGBA).InRange c := by
    intro c hc
    obtain ⟨gx, gy, h1, h2, h3, h4, h5, h6⟩ := mem_tileCoords.mp hc
    refine ⟨?_, ?_, ?_, ?_⟩
    · show c.x < mipmaped_size tw c.mip
      rw [h6]
      unfold mipmaped_size
      simp only [pow_zero, Nat.div_one]
      omega
    · show c.y < mipmaped_size th c.mip
      rw [h6]
      unfold mipmaped_size
      simp only [pow_zero, Nat.div_one]
      omega
    · show c.layer < W / tw * (H / th)
      have := row_major_lt h1 h2
      rw [Nat.mul_comm gy (W / tw)] at this
      omega
    · show c.mip < max_mapmap_levels tw th
      unfold max_mapmap_levels
      omega
  obtain ⟨fs, ff, fv⟩ := writeFold_spec _ hwfb
    (fun _ c => tileValue img (W / tw) tw th c)
    (tileCoords (W / tw) (H / th) tw th) _ (SameShape.rfl _) hin
    (nodup_tileCoords (W / tw) (H / th) tw th)
    (fun b hb c hc c2 hc2 v => rfl)
  have hwfF := fs.wf_iff.mpr hwfb
  have hgbF := fs.genBounds_iff.mpr hgbb
  obtain ⟨gs, g0, _⟩ := generate_mipmaps_spec _ hwfF hgbF
  rw [parse_tileset_eq]
  refine ⟨gs.trans fs, ?_⟩
  intro gx gy px py h1 h2 h3 h4
  have hcmem : Coord.mk px py (gx + W / tw * gy) 0 ∈ tileCoords (W / tw) (H / th) tw th :=
    mem_tileCoords.mpr ⟨gx, gy, h1, h2, h3, h4, rfl, rfl⟩
  have hcin := hin _ hcmem
  have step1 := g0 _ ((fs.inRange_iff _).mpr hcin) rfl
  have step2 := fv _ hcmem
  show (generate_mipmaps _).getC (Coord.mk px py (gx + W / tw * gy) 0) = _
  rw [step1, step2]
  show img ((gx + W / tw * gy) % (W / tw) * tw + px)
      ((gx + W / tw * gy) / (W / tw) * th + py) = _
  have hex : 0 < W / tw := by omega
  rw [Nat.add_mul_mod_self_left, Nat.mod_eq_of_lt h1,
    Nat.add_mul_div_left _ _ hex, Nat.div_eq_of_lt h1, Nat.zero_add]

end TextureData

/-! ### The claims -/

open TextureData

theorem size_per_layer_eq_sum (w h n : Nat) :
    size_per_layer w h n = ∑ l ∈ Finset.range n, max 1 (w >>> l) * max 1 (h >>> l) := by
  have e : size_per_layer w h n = ∑ l ∈ Finset.range n, mipmaped_size w l * mipmaped_size h l :=
    rfl
  rw [e]
  apply Finset.sum_congr rfl
  intro l _
  unfold mipmaped_size
  rw [Nat.shiftRight_eq_div_pow, Nat.shiftRight_eq_div_pow,
    Nat.max_comm (w / 2 ^ l) 1, Nat.max_comm (h / 2 ^ l) 1]

theorem average_channel_val (p0 p1 p2 p3 : RGBA) :
    (average p0 p1 p2 p3).r.val = (p0.r.val + p1.r.val + p2.r.val + p3.r.val) / 4 ∧
      (average p0 p1 p2 p3).g.val = (p0.g.val + p1.g.val + p2.g.val + p3.g.val) / 4 ∧
      (average p0 p1 p2 p3).b.val = (p0.b.val + p1.b.val + p2.b.val + p3.b.val) / 4 ∧
      (average p0 p1 p2 p3).a.val = (p0.a.val + p1.a.val + p2.a.val + p3.a.val) / 4 := by
  refine ⟨?_, ?_, ?_, ?_⟩
  · show (p0.r.val + p1.r.val + p2.r.val + p3.r.val) / 4 % 256 = _
    have a0 := p0.r.isLt
    have a1 := p1.r.isLt
    have a2 := p2.r.isLt
    have a3 := p3.r.isLt
    apply Nat.mod_eq_of_lt
    omega
  · show (p0.g.val + p1.g.val + p2.g.val + p3.g.val) / 4 % 256 = _
    have a0 := p0.g.isLt
    have a1 := p1.g.isLt
    have a2 := p2.g.isLt
    have a3 := p3.g.isLt
    apply Nat.mod_eq_of_lt
    omega
  · show (p0.b.val + p1.b.val + p2.b.val + p3.b.val) / 4 % 256 = _
    have a0 := p0.b.isLt
    have a1 := p1.b.isLt
    have a2 := p2.b.isLt
    have a3 := p3.b.isLt
    apply Nat.mod_eq_of_lt
    omega
  · show (p0.a.val + p1.a.val + p2.a.val + p3.a.val) / 4 % 256 = _
    have a0 := p0.a.isLt
    have a1 := p1.a.isLt
    have a2 := p2.a.isLt
    have a3 := p3.a.isLt
    apply Nat.mod_eq_of_lt
    omega

/-- C1: after generate_mipmaps, for every layer, every level m with
1 ≤ m < mipmap_count and every in-range destination (x, y) at level m, the
pixel at (x, y, layer, m) equals, per channel, the truncated integer
average (sum divided by 4, remainder discarded) of the four level-(m-1)
pixels at (2x, 2y), (2x+1, 2y), (2x+1, 2y+1), (2x, 2y+1).  The hypotheses
wf and GenBounds say the buffer respects the length invariant of new and
that the pass satisfies the debug_assert bounds of get_pixel (without
GenBounds the Rust code panics, see the C2 result); the theorem covers any
mipmap count, in particular a Full pyramid. -/
theorem mipmap_box_filter_invariant (td : TextureData RGBA) (hwf : td.wf)
    (hgb : td.GenBounds) (x y layer m : Nat) (hm1 : 1 ≤ m) (hm : m < td.mipmaps)
    (hl : layer < td.depth) (hx : x < td.mipmapped_width m) (hy : y < td.mipmapped_height m) :
    (td.generate_mipmaps.get_pixel x y layer m).r.val =
        ((td.generate_mipmaps.get_pixel (2 * x) (2 * y) layer (m - 1)).r.val +
          (td.generate_mipmaps.get_pixel (2 * x + 1) (2 * y) layer (m - 1)).r.val +
          (td.generate_mipmaps.get_pixel (2 * x + 1) (2 * y + 1) layer (m - 1)).r.val +
          (td.generate_mipmaps.get_pixel (2 * x) (2 * y + 1) layer (m - 1)).r.val) / 4 ∧
      (td.generate_mipmaps.get_pixel x y layer m).g.val =
        ((td.generate_mipmaps.get_pixel (2 * x) (2 * y) layer (m - 1)).g.val +
          (td.generate_mipmaps.get_pixel (2 * x + 1) (2 * y) layer (m - 1)).g.val +
          (td.generate_mipmaps.get_pixel (2 * x + 1) (2 * y + 1) layer (m - 1)).g.val +
          (td.generate_mipmaps.get_pixel (2 * x) (2 * y + 1) layer (m - 1)).g.val) / 4 ∧
      (td.generate_mipmaps.get_pixel x y layer m).b.val =
        ((td.generate_mipmaps.get_pixel (2 * x) (2 * y) layer (m - 1)).b.val +
          (td.generate_mipmaps.get_pixel (2 * x + 1) (2 * y) layer (m - 1)).b.val +
          (td.generate_mipmaps.get_pixel (2 * x + 1) (2 * y + 1) layer (m - 1)).b.val +
          (td.generate_mipmaps.get_pixel (2 * x) (2 * y + 1) layer (m - 1)).b.val) / 4 ∧
      (td.generate_mipmaps.get_pixel x y layer m).a.val =
        ((td.generate_mipmaps.get_pixel (2 * x) (2 * y) layer (m - 1)).a.val +
          (td.generate_mipmaps.get_pixel (2 * x + 1) (2 * y) layer (m - 1)).a.val +
          (td.generate_mipmaps.get_pixel (2 * x + 1) (2 * y + 1) layer (m - 1)).a.val +
          (td.generate_mipmaps.get_pixel (2 * x) (2 * y + 1) layer (m - 1)).a.val) / 4 := by
  have key : td.generate_mipmaps.get_pixel x y layer m =
      average (td.generate_mipmaps.get_pixel (2 * x) (2 * y) layer (m - 1))
        (td.generate_mipmaps.get_pixel (2 * x + 1) (2 * y) layer (m - 1))
        (td.generate_mipmaps.get_pixel (2 * x + 1) (2 * y + 1) layer (m - 1))
        (td.generate_mipmaps.get_pixel (2 * x) (2 * y + 1) layer (m - 1)) :=
    (generate_mipmaps_spec td hwf hgb).2.2 (Coord.mk x y layer m) ⟨hx, hy, hl, hm⟩ hm1
  rw [key]
  exact average_channel_val _ _ _ _

/-- Witness for C1: on the concrete 2-by-2 buffer the level-1 pixel is the
truncated channel average (10+11+12+13)/4 = 11 of the four level-0 pixels. -/
theorem mipmap_box_filter_invariant_witness :
    (TextureData.sampleBuffer.wf ∧ TextureData.sampleBuffer.GenBounds) ∧
      (TextureData.sampleBuffer.generate_mipmaps.get_pixel 0 0 0 1).r.val =
        ((TextureData.sampleBuffer.generate_mipmaps.get_pixel 0 0 0 0).r.val +
          (TextureData.sampleBuffer.generate_mipmaps.get_pixel 1 0 0 0).r.val +
          (TextureData.sampleBuffer.generate_mipmaps.get_pixel 1 1 0 0).r.val +
          (TextureData.sampleBuffer.generate_mipmaps.get_pixel 0 1 0 0).r.val) / 4 :=
  ⟨⟨by decide, by decide⟩,
    (mipmap_box_filter_invariant TextureData.sampleBuffer (by decide) (by decide)
      0 0 0 1 (by decide) (by decide) (by decide) (by decide) (by decide)).1⟩

/-- C2 (code bug): on a 2-by-1 buffer with a Full pyramid, the destination
coordinate (0, 0) of mip level 1 is in range, yet the source coordinate
(2*0+1, 2*0+1) = (1, 1) that generate_mipmaps reads for it at level 0
violates the asserted bound y < mipmapped_height(0) = 1 (so GenBounds
fails), and its flat index 1 + 1 * mipmapped_width(0) = 3 is not below the
level-0 slice length mipmapped_width(0) * mipmapped_height(0) = 2, so the
release-mode slice access panics instead of degenerating to clamped
sampling. -/
theorem generate_mipmaps_reads_out_of_bounds :
    (TextureData.new (T := RGBA) 2 1 1 MipMaps.all).InRange (Coord.mk 0 0 0 1) ∧
      ¬ (TextureData.new (T := RGBA) 2 1 1 MipMaps.all).GenBounds ∧
      (TextureData.new (T := RGBA) 2 1 1 MipMaps.all).mipmapped_height 0 ≤
        (TextureData.r11 (Coord.mk 0 0 0 1)).y ∧
      (TextureData.new (T := RGBA) 2 1 1 MipMaps.all).mipmapped_width 0 *
          (TextureData.new (T := RGBA) 2 1 1 MipMaps.all).mipmapped_height 0 ≤
        (TextureData.r11 (Coord.mk 0 0 0 1)).x +
          (TextureData.r11 (Coord.mk 0 0 0 1)).y *
            (TextureData.new (T := RGBA) 2 1 1 MipMaps.all).mipmapped_width 0 := by
  decide

/-- C3: for every construction with a policy passing the debug_assert of new,
the pixel buffer length equals depth times the sum over all mip levels of
max(1, width >> l) * max(1, height >> l), and every element is the zero
value of T. -/
theorem new_buffer_length_and_zeroed {T : Type} [Zero T] (w h d : Nat) (p : MipMaps)
    (hp : TextureData.new_assert_ok w h p = true) :
    (TextureData.new (T := T) w h d p).pixels.size =
        d * ∑ l ∈ Finset.range (TextureData.new (T := T) w h d p).mipmaps,
          max 1 (w >>> l) * max 1 (h >>> l) ∧
      ∀ i, i < (TextureData.new (T := T) w h d p).pixels.size →
        (TextureData.new (T := T) w h d p).pixels.getD i 0 = 0 := by
  constructor
  · show (mkArray (size_per_layer w h (mipmapCount w h p) * d) (0 : T)).size =
      d * ∑ l ∈ Finset.range (mipmapCount w h p), max 1 (w >>> l) * max 1 (h >>> l)
    rw [Array.size_mkArray, ← size_per_layer_eq_sum, Nat.mul_comm]
  · intro i hi
    have hi2 : i < (mkArray (size_per_layer w h (mipmapCount w h p) * d) (0 : T)).size := hi
    show (mkArray (size_per_layer w h (mipmapCount w h p) * d) (0 : T)).getD i 0 = 0
    unfold Array.getD
    rw [dif_pos hi2, Array.get_eq_getElem, Array.getElem_mkArray]

/-- Witness for C3 at a 300-by-150 buffer with two layers and three explicit
mip levels. -/
theorem new_buffer_length_and_zeroed_witness :
    TextureData.new_assert_ok 300 150 (MipMaps.some 3) = true ∧
      (TextureData.new (T := RGBA) 300 150 2 (MipMaps.some 3)).pixels.size =
        2 * ∑ l ∈ Finset.range (TextureData.new (T := RGBA) 300 150 2 (MipMaps.some 3)).mipmaps,
          max 1 (300 >>> l) * max 1 (150 >>> l) :=
  ⟨by decide, (new_buffer_length_and_zeroed 300 150 2 (MipMaps.some 3) (by decide)).1⟩

/-- C5: for every well-formed buffer and in-range coordinates, get_pixel
returns the flat buffer element at offset layer * per_layer_size +
mip_base(level) + y * mipmapped_width(level) + x, where per_layer_size and
mip_base are the sums of mipmapped_width(l) * mipmapped_height(l) over all
levels and over levels below the requested one. -/
theorem get_pixel_flat_offset {T : Type} [Inhabited T] (td : TextureData T) (hwf : td.wf)
    (x y layer level : Nat) (hx : x < td.mipmapped_width level)
    (hy : y < td.mipmapped_height level) (hl : layer < td.depth) (hlev : level < td.mipmaps) :
    td.get_pixel x y layer level =
      td.pixels.getD
        (layer * (∑ l ∈ Finset.range td.mipmaps, td.mipmapped_width l * td.mipmapped_height l) +
          (∑ l ∈ Finset.range level, td.mipmapped_width l * td.mipmapped_height l) +
          y * td.mipmapped_width level + x) default := by
  have key : td.get_pixel x y layer level =
      td.pixels.getD (td.pixel_index x y layer level) default :=
    getC_eq_getD td hwf (⟨hx, hy, hl, hlev⟩ : td.InRange (Coord.mk x y layer level))
  rw [key]
  congr 1
  have e1 : td.layer_size =
      ∑ l ∈ Finset.range td.mipmaps, td.mipmapped_width l * td.mipmapped_height l := rfl
  have e2 : size_per_layer td.width td.height level =
      ∑ l ∈ Finset.range level, td.mipmapped_width l * td.mipmapped_height l := rfl
  show layer * td.layer_size + size_per_layer td.width td.height level +
      (x + y * td.mipmapped_width level) = _
  rw [← e1, ← e2]
  omega

/-- Witness for C5 on a 2-by-2, two-layer buffer at (1, 0, 1, 0). -/
theorem get_pixel_flat_offset_witness :
    ((TextureData.new (T := RGBA) 2 2 2 MipMaps.all).wf ∧
        1 < (TextureData.new (T := RGBA) 2 2 2 MipMaps.all).mipmapped_width 0 ∧
        0 < (TextureData.new (T := RGBA) 2 2 2 MipMaps.all).mipmapped_height 0 ∧
        1 < (TextureData.new (T := RGBA) 2 2 2 MipMaps.all).depth ∧
        0 < (TextureData.new (T := RGBA) 2 2 2 MipMaps.all).mipmaps) ∧
      (TextureData.new (T := RGBA) 2 2 2 MipMaps.all).get_pixel 1 0 1 0 =
        (TextureData.new (T := RGBA) 2 2 2 MipMaps.all).pixels.getD
          (1 * (∑ l ∈ Finset.range (TextureData.new (T := RGBA) 2 2 2 MipMaps.all).mipmaps,
                (TextureData.new (T := RGBA) 2 2 2 MipMaps.all).mipmapped_width l *
                  (TextureData.new (T := RGBA) 2 2 2 MipMaps.all).mipmapped_height l) +
            (∑ l ∈ Finset.range 0,
                (TextureData.new (T := RGBA) 2 2 2 MipMaps.all).mipmapped_width l *
                  (TextureData.new (T := RGBA) 2 2 2 MipMaps.all).mipmapped_height l) +
            0 * (TextureData.new (T := RGBA) 2 2 2 MipMaps.all).mipmapped_width 0 + 1) default :=
  ⟨⟨by decide, by decide, by decide, by decide, by decide⟩,
    get_pixel_flat_offset (TextureData.new (T := RGBA) 2 2 2 MipMaps.all) (by decide)
      1 0 1 0 (by decide) (by decide) (by decide) (by decide)⟩

/-- C6: writing v through get_pixel_mut at in-range coordinates and reading
back through get_pixel at the same coordinates returns v: both accessors
address the same storage element. -/
theorem set_then_get_pixel_roundtrip {T : Type} [Inhabited T] (td : TextureData T) (v : T)
    (hwf : td.wf) (x y layer level : Nat) (hx : x < td.mipmapped_width level)
    (hy : y < td.mipmapped_height level) (hl : layer < td.depth) (hlev : level < td.mipmaps) :
    (td.set_pixel x y layer level v).get_pixel x y layer level = v :=
  getC_setC_self td v hwf (⟨hx, hy, hl, hlev⟩ : td.InRange (Coord.mk x y layer level))

/-- Witness for C6 on a 2-by-2 buffer at (1, 1, 0, 0). -/
theorem set_then_get_pixel_roundtrip_witness :
    (TextureData.new (T := RGBA) 2 2 1 MipMaps.all).wf ∧
      ((TextureData.new (T := RGBA) 2 2 1 MipMaps.all).set_pixel 1 1 0 0
          (⟨9, 8, 7, 6⟩ : RGBA)).get_pixel 1 1 0 0 = (⟨9, 8, 7, 6⟩ : RGBA) :=
  ⟨by decide,
    set_then_get_pixel_roundtrip (TextureData.new (T := RGBA) 2 2 1 MipMaps.all) ⟨9, 8, 7, 6⟩
      (by decide) 1 1 0 0 (by decide) (by decide) (by decide) (by decide)⟩

/-- Counterexample for C7 as stated: a buffer of width 0 is constructible,
and its mipmapped_width(0) = max(0 / 1, 1) = 1 differs from its width 0. -/
theorem mipmapped_width_zero_counterexample :
    ¬ ((TextureData.new (T := RGBA) 0 1 1 MipMaps.none).mipmapped_width 0 =
      (TextureData.new (T := RGBA) 0 1 1 MipMaps.none).width) := by
  decide

/-- C7 (amended): mipmapped_width(0) equals width whenever width is at
least 1 (and likewise for height); for widths of 0 the clamp makes it 1
instead.  Unconditionally, both mipmapped dimensions are at least 1 and
non-increasing in the level. -/
theorem mipmapped_dims_base_and_monotone {T : Type} (td : TextureData T) :
    (1 ≤ td.width → td.mipmapped_width 0 = td.width) ∧
      (1 ≤ td.height → td.mipmapped_height 0 = td.height) ∧
      ∀ level, 1 ≤ td.mipmapped_width level ∧ 1 ≤ td.mipmapped_height level ∧
        td.mipmapped_width (level + 1) ≤ td.mipmapped_width level ∧
        td.mipmapped_height (level + 1) ≤ td.mipmapped_height level := by
  have base : ∀ w : Nat, 1 ≤ w → mipmaped_size w 0 = w := by
    intro w hw
    unfold mipmaped_size
    rw [pow_zero, Nat.div_one]
    omega
  have mono : ∀ w l : Nat, mipmaped_size w (l + 1) ≤ mipmaped_size w l := by
    intro w l
    unfold mipmaped_size
    have h1 : w / 2 ^ (l + 1) ≤ w / 2 ^ l :=
      Nat.div_le_div_left (Nat.pow_le_pow_right (by omega) (by omega)) (Nat.pow_pos (by omega))
    omega
  exact ⟨base td.width, base td.height,
    fun level => ⟨mipmaped_size_pos _ _, mipmaped_size_pos _ _, mono _ _, mono _ _⟩⟩

/-- Witness for C7 (amended) on a 3-by-2 buffer. -/
theorem mipmapped_dims_base_and_monotone_witness :
    1 ≤ (TextureData.new (T := RGBA) 3 2 1 MipMaps.none).width ∧
      (TextureData.new (T := RGBA) 3 2 1 MipMaps.none).mipmapped_width 0 =
        (TextureData.new (T := RGBA) 3 2 1 MipMaps.none).width :=
  ⟨by decide,
    (mipmapped_dims_base_and_monotone (TextureData.new (T := RGBA) 3 2 1 MipMaps.none)).1
      (by decide)⟩

/-- C8: for a 300-by-150 image max_mapmap_levels is 9, and constructing
with Explicit(n) for any n outside 1 <= n < max_mapmap_levels fails the
debug_assert (modelled by new_checked returning none) instead of silently
building the buffer. -/
theorem explicit_mipmap_out_of_range_fails :
    max_mapmap_levels 300 150 = 9 ∧
      ∀ (w h d n : Nat), ¬(1 ≤ n ∧ n < max_mapmap_levels w h) →
        TextureData.new_checked (T := RGBA) w h d (MipMaps.some n) = Option.none := by
  refine ⟨by decide, ?_⟩
  intro w h d n hn
  have hb : TextureData.new_assert_ok w h (MipMaps.some n) = false := by
    unfold TextureData.new_assert_ok
    exact decide_eq_false hn
  unfold TextureData.new_checked
  rw [hb]
  rfl

/-- Witness for C8: Explicit(9) on a 300-by-150 image is rejected. -/
theorem explicit_mipmap_out_of_range_fails_witness :
    ¬(1 ≤ 9 ∧ 9 < max_mapmap_levels 300 150) ∧
      TextureData.new_checked (T := RGBA) 300 150 1 (MipMaps.some 9) = Option.none :=
  ⟨by decide, explicit_mipmap_out_of_range_fails.2 300 150 1 9 (by decide)⟩

theorem generate_mipmaps_depth_zero (td : TextureData RGBA) (h : td.depth = 0) :
    td.generate_mipmaps = td := by
  unfold TextureData.generate_mipmaps
  rw [h]
  rfl

/-- C10: if the image width is smaller than the tile width, parse_tileset
still returns a buffer, with depth 0 and depth_divisor Some 0, and a
subsequent depth_y() call divides depth by the zero divisor, which panics
in Rust (modelled by Except.error). -/
theorem parse_tileset_zero_tiles_depth_y_panics (W H tw th : Nat) (img : Nat → Nat → RGBA)
    (hW : W < tw) (hth : 1 ≤ th) :
    (parse_tileset W H img tw th).depth = 0 ∧
      (parse_tileset W H img tw th).depth_divisor = Option.some 0 ∧
      (parse_tileset W H img tw th).depth_y = Except.error () := by
  have hex : W / tw = 0 := Nat.div_eq_of_lt hW
  rw [parse_tileset_eq, hex]
  have hcs : tileCoords 0 (H / th) tw th = [] := by
    apply List.eq_nil_iff_forall_not_mem.mpr
    intro c hc
    obtain ⟨gx, gy, h1, _⟩ := mem_tileCoords.mp hc
    omega
  rw [hcs]
  rw [generate_mipmaps_depth_zero _ (Nat.zero_mul _)]
  exact ⟨Nat.zero_mul _, rfl, rfl⟩

/-- Witness for C10: a 32-by-64 image with 64-by-64 tiles. -/
theorem parse_tileset_zero_tiles_depth_y_panics_witness :
    ((32 : Nat) < 64 ∧ (1 : Nat) ≤ 64) ∧
      (parse_tileset 32 64 (fun _ _ => (0 : RGBA)) 64 64).depth_y = Except.error () :=
  ⟨⟨by decide, by decide⟩,
    (parse_tileset_zero_tiles_depth_y_panics 32 64 64 64 (fun _ _ => (0 : RGBA))
      (by decide) (by decide)).2.2⟩

/-- Counterexample for C4 as stated: a 32-by-64 image decodes fine, but
with 64-by-64 tiles the tiles-per-row count is 32 / 64 = 0, and depth_y()
does not return H / th = 1: it divides by zero (Except.error models the
Rust panic). -/
theorem parse_tileset_depth_y_counterexample :
    (parse_tileset 32 64 (fun _ _ => (0 : RGBA)) 64 64).depth_y ≠
      Except.ok (Option.some (64 / 64)) := by
  decide

/-- C4 (amended): provided the tile dimensions are positive, the image is
at least one tile wide, and the mipmap pass over a tile satisfies the
asserted read bounds (GenBounds; degenerate tile shapes panic, see C2),
parse_tileset returns a buffer with depth = (W/tw) * (H/th), depth_x =
W/tw, depth_y = H/th, a Full mipmap count, the level-0 pixel (px, py) of
layer gx + (W/tw) * gy equal to the source pixel (gx*tw+px, gy*th+py), and
no source read outside the image; in particular a 256-by-128 image with
64-by-64 tiles yields depth 8, depth_x 4, depth_y 2, with tile (2, 1) at
layer 6. -/
theorem parse_tileset_grid_spec :
    (∀ (W H tw th : Nat) (img : Nat → Nat → RGBA), 1 ≤ tw → 1 ≤ th → tw ≤ W →
      (TextureData.new (T := RGBA) tw th (W / tw * (H / th)) MipMaps.all).GenBounds →
      (parse_tileset W H img tw th).depth = W / tw * (H / th) ∧
        (parse_tileset W H img tw th).depth_x = Option.some (W / tw) ∧
        (parse_tileset W H img tw th).depth_y = Except.ok (Option.some (H / th)) ∧
        (parse_tileset W H img tw th).mipmaps = max_mapmap_levels tw th ∧
        (∀ gx gy px py, gx < W / tw → gy < H / th → px < tw → py < th →
          (parse_tileset W H img tw th).get_pixel px py (gx + W / tw * gy) 0 =
            img (gx * tw + px) (gy * th + py)) ∧
        (∀ gx gy px py, gx < W / tw → gy < H / th → px < tw → py < th →
          gx * tw + px < W ∧ gy * th + py < H)) ∧
      ∀ img : Nat → Nat → RGBA,
        (parse_tileset 256 128 img 64 64).depth = 8 ∧
          (parse_tileset 256 128 img 64 64).depth_x = Option.some 4 ∧
          (parse_tileset 256 128 img 64 64).depth_y = Except.ok (Option.some 2) ∧
          ∀ px py, px < 64 → py < 64 →
            (parse_tileset 256 128 img 64 64).get_pixel px py 6 0 =
              img (2 * 64 + px) (1 * 64 + py) := by
  have hgen : ∀ (W H tw th : Nat) (img : Nat → Nat → RGBA), 1 ≤ tw → 1 ≤ th → tw ≤ W →
      (TextureData.new (T := RGBA) tw th (W / tw * (H / th)) MipMaps.all).GenBounds →
      (parse_tileset W H img tw th).depth = W / tw * (H / th) ∧
        (parse_tileset W H img tw th).depth_x = Option.some (W / tw) ∧
        (parse_tileset W H img tw th).depth_y = Except.ok (Option.some (H / th)) ∧
        (parse_tileset W H img tw th).mipmaps = max_mapmap_levels tw th ∧
        (∀ gx gy px py, gx < W / tw → gy < H / th → px < tw → py < th →
          (parse_tileset W H img tw th).get_pixel px py (gx + W / tw * gy) 0 =
            img (gx * tw + px) (gy * th + py)) ∧
        (∀ gx gy px py, gx < W / tw → gy < H / th → px < tw → py < th →
          gx * tw + px < W ∧ gy * th + py < H) := by
    intro W H tw th img htw hth hWtw hgb
    obtain ⟨hsh, hpix⟩ := parse_tileset_spec W H img tw th hgb
    have hdd : (parse_tileset W H img tw th).depth_divisor = Option.some (W / tw) :=
      hsh.2.2.2.2.1
    have hdep : (parse_tileset W H img tw th).depth = W / tw * (H / th) := hsh.2.2.1
    have hexpos : 0 < W / tw := (Nat.one_le_div_iff htw).mpr hWtw
    refine ⟨hdep, hdd, ?_, hsh.2.2.2.1, hpix, ?_⟩
    · unfold TextureData.depth_y
      rw [hdd]
      show (if W / tw = 0 then Except.error () else
        Except.ok (Option.some ((parse_tileset W H img tw th).depth / (W / tw)))) = _
      rw [if_neg (by omega), hdep, Nat.mul_div_cancel_left _ hexpos]
    · intro gx gy px py h1 h2 h3 h4
      constructor
      · calc gx * tw + px < gx * tw + tw := by omega
          _ = (gx + 1) * tw := by ring
          _ ≤ W / tw * tw := Nat.mul_le_mul_right _ (by omega)
          _ ≤ W := Nat.div_mul_le_self W tw
      · calc gy * th + py < gy * th + th := by omega
          _ = (gy + 1) * th := by ring
          _ ≤ H / th * th := Nat.mul_le_mul_right _ (by omega)
          _ ≤ H := Nat.div_mul_le_self H th
  refine ⟨hgen, ?_⟩
  intro img
  obtain ⟨h1, h2, h3, h4, h5, h6⟩ :=
    hgen 256 128 64 64 img (by omega) (by omega) (by omega) (by decide)
  refine ⟨?_, ?_, ?_, ?_⟩
  · rw [h1]
  · rw [h2]
  · rw [h3]
  · intro px py hpx hpy
    have h := h5 2 1 px py (by decide) (by decide) hpx hpy
    have e6 : 2 + 256 / 64 * 1 = 6 := by decide
    rw [e6] at h
    exact h

/-- Witness for C4 (amended) on a 2-by-2 image with 1-by-1 tiles. -/
theorem parse_tileset_grid_spec_witness :
    ((1 : Nat) ≤ 1 ∧ (1 : Nat) ≤ 2 ∧
        (TextureData.new (T := RGBA) 1 1 (2 / 1 * (2 / 1)) MipMaps.all).GenBounds) ∧
      (parse_tileset 2 2 (fun _ _ => (0 : RGBA)) 1 1).depth = 2 / 1 * (2 / 1) :=
  ⟨⟨by decide, by decide, by decide⟩,
    (parse_tileset_grid_spec.1 2 2 1 1 (fun _ _ => (0 : RGBA)) (by decide) (by decide)
      (by decide) (by decide)).1⟩
